import Mathlib

/-!
Shallow embedding of the shopmasterback sales / inventory ledger
(`src/services/sales.service.ts`, `InventoryService`, entities `Product`,
`Sales`, `SalesProduct`, `Inventory`, `User`).

Stores are modelled as lists of rows; TypeORM `findOneBy` becomes
`List.find?`, `repository.save` of an existing row becomes a map that
replaces the row with the matching primary key, and thrown `ApiError`s
become `Except.error`.  Operations that mutate state mid-way and then
throw (the source uses no transactions) return the partially-updated
state together with the error, exactly as the database would be left.
-/

namespace Shop

/-- `SalesStatus` enum from `entities/Sales.ts`. -/
inductive SalesStatus where
  | completed
  | returned
  | pending
  | cancelled
  deriving DecidableEq, Repr

/-- `PaymentChannel` enum from `entities/Sales.ts`. -/
inductive PaymentChannel where
  | cash
  | transfer
  | card
  | other
  | flutter
  deriving DecidableEq, Repr

/-- `InventoryStatus` enum from `entities/Inventory.ts`. -/
inductive InventoryStatus where
  | pending
  | completed
  | reconciled
  deriving DecidableEq, Repr

/-- `ApiError` from `utils/apiError.ts`: a message and an HTTP status code. -/
structure ApiError where
  message : String
  statusCode : Nat
  deriving DecidableEq, Repr

/-- `Product` entity (the columns the ledger touches).  `price` and
`quantity` are numbers in the source; modelled as `Int`. -/
structure Product where
  id : String
  outletId : String
  name : String
  price : Int
  quantity : Int
  deriving DecidableEq, Repr

/-- `User` entity (the fields the ledger and the RBAC queries touch).
`businessId` and `outletId` are nullable columns. -/
structure User where
  id : String
  userType : String
  businessId : Option String
  outletId : Option String
  deriving DecidableEq, Repr

/-- `SalesProduct` junction entity: one line of a sale, with the
denormalized `productName` and `priceAtSale`. -/
structure SalesProduct where
  productId : String
  productName : String
  quantity : Int
  priceAtSale : Int
  deriving DecidableEq, Repr

/-- Customer snapshot stored on a sale (jsonb column). -/
structure Customer where
  name : String
  phone : Option String
  email : Option String
  address : Option String
  deriving DecidableEq, Repr

/-- `Sales` entity.  Ids are modelled as the `Nat` drawn from the
store's id counter at creation. -/
structure Sales where
  id : Nat
  products : List SalesProduct
  totalAmount : Int
  discount : Option Int
  amountPaid : Int
  remainingToPay : Int
  paymentChannel : PaymentChannel
  status : SalesStatus
  salesPersonId : Option String
  customer : Option Customer
  deriving DecidableEq, Repr

/-- One element of `Inventory.products` (jsonb array):
`{ productId, name, counted, amountInDb, reconciled }`. -/
structure InventoryLine where
  productId : String
  name : String
  counted : Int
  amountInDb : Int
  reconciled : Bool
  deriving DecidableEq, Repr

/-- `Inventory` entity. -/
structure Inventory where
  id : Nat
  outletId : String
  actionerId : String
  products : List InventoryLine
  status : InventoryStatus
  deriving DecidableEq, Repr

/-- `Outlet` entity (only the fields the inventory service reads). -/
structure Outlet where
  id : String
  name : String
  deriving DecidableEq, Repr

/-- The database state the four ledger operations read and write.
`nextId` models the id generator for newly persisted rows. -/
structure DB where
  users : List User
  outlets : List Outlet
  products : List Product
  sales : List Sales
  inventories : List Inventory
  nextId : Nat
  deriving DecidableEq, Repr

/-- `productRepository.findOneBy({ id, outletId })` with a string outlet
(used by `InventoryService.recordInventory`). -/
def findProduct (ps : List Product) (pid oid : String) : Option Product :=
  ps.find? (fun p => decide (p.id = pid ∧ p.outletId = oid))

/-- `productRepository.findOneBy({ id, outletId: salesPerson.outletId })`
in `recordSale`; the sales person's outlet is a nullable column, and a
null outlet matches nothing. -/
def findProductForSale (ps : List Product) (pid : String) (oid : Option String) :
    Option Product :=
  ps.find? (fun p => decide (p.id = pid ∧ some p.outletId = oid))

/-- `productRepository.findOneBy({ id })` (used by the return re-stock
loop, which does not filter by outlet). -/
def findProductById (ps : List Product) (pid : String) : Option Product :=
  ps.find? (fun p => decide (p.id = pid))

/-- `productRepository.save(product)`: overwrite the row with the same
primary key. -/
def saveProduct (ps : List Product) (p : Product) : List Product :=
  ps.map (fun q => if q.id = p.id then p else q)

/-- `productRepository.update(pid, { quantity })` used by
`reconcileInventory`: set only the quantity of the row with key `pid`. -/
def setQuantity (ps : List Product) (pid : String) (v : Int) : List Product :=
  ps.map (fun p => if p.id = pid then { p with quantity := v } else p)

/-- `salesRepository.save` of an existing sale. -/
def saveSale (ss : List Sales) (s : Sales) : List Sales :=
  ss.map (fun t => if t.id = s.id then s else t)

/-- `inventoryRepository.save` of an existing inventory record. -/
def saveInventory (is_ : List Inventory) (i : Inventory) : List Inventory :=
  is_.map (fun j => if j.id = i.id then i else j)

/-- One line of `recordSale`'s `products` input. -/
structure SaleLineInput where
  productId : String
  quantity : Int
  deriving DecidableEq, Repr

/-- `recordSale`'s `saleData` parameter (shape of `RecordSaleDto`):
`status` is an optional caller-supplied field. -/
structure SaleData where
  products : List SaleLineInput
  customer : Option Customer
  discount : Option Int
  amountPaid : Int
  paymentChannel : PaymentChannel
  status : Option SalesStatus
  deriving DecidableEq, Repr

def productNotFoundInOutletMsg (pid : String) : String :=
  "Product with ID " ++ pid ++ " not found in your assigned outlet."

def insufficientStockMsg (p : Product) : String :=
  "Insufficient stock for product " ++ p.name ++ ". Available: " ++ toString p.quantity

/-- The `for (const item of saleData.products)` loop of `recordSale`:
look the product up in the sales person's outlet, check stock, build the
`SalesProduct` line, accumulate the total and save the decremented
product — one `save` per line, so an error part-way leaves the earlier
decrements in the returned state. -/
def processSaleLines (ps : List Product) (oid : Option String) :
    List SaleLineInput → List Product × Except ApiError (List SalesProduct × Int)
  | [] => (ps, .ok ([], 0))
  | item :: rest =>
    match findProductForSale ps item.productId oid with
    | none => (ps, .error ⟨productNotFoundInOutletMsg item.productId, 404⟩)
    | some product =>
      if product.quantity < item.quantity then
        (ps, .error ⟨insufficientStockMsg product, 400⟩)
      else
        match processSaleLines
            (saveProduct ps { product with quantity := product.quantity - item.quantity })
            oid rest with
        | (ps'', .ok (sps, total)) =>
          (ps'', .ok (⟨product.id, product.name, item.quantity, product.price⟩ :: sps,
                      product.price * item.quantity + total))
        | (ps'', .error e) => (ps'', .error e)

/-- JS truthiness of `if (saleData.discount) totalAmount -= saleData.discount`:
an absent or zero discount subtracts nothing. -/
def discountApplied : Option Int → Int
  | some d => if d = 0 then 0 else d
  | none => 0

/-- The sale row `recordSale` builds with `salesRepository.create`: the
spread of `saleData` (so a caller-supplied `status` is kept; the entity
default `COMPLETED` applies only when it is absent) overridden by the
computed `totalAmount`, `remainingToPay`, sales person and lines. -/
def mkSale (db : DB) (salesPerson : User) (saleData : SaleData)
    (salesProducts : List SalesProduct) (total : Int) : Sales :=
  { id := db.nextId
    products := salesProducts
    totalAmount := total - discountApplied saleData.discount
    discount := saleData.discount
    amountPaid := saleData.amountPaid
    remainingToPay := total - discountApplied saleData.discount - saleData.amountPaid
    paymentChannel := saleData.paymentChannel
    status := saleData.status.getD .completed
    salesPersonId := some salesPerson.id
    customer := saleData.customer }

/-- `SalesService.recordSale`. -/
def recordSale (db : DB) (salesPersonId : String) (saleData : SaleData) :
    DB × Except ApiError Sales :=
  match db.users.find? (fun u => decide (u.id = salesPersonId)) with
  | none => (db, .error ⟨"Sales person not found.", 404⟩)
  | some salesPerson =>
    match processSaleLines db.products salesPerson.outletId saleData.products with
    | (ps', .error e) => ({ db with products := ps' }, .error e)
    | (ps', .ok (salesProducts, total)) =>
      ({ db with
          products := ps'
          sales := db.sales ++ [mkSale db salesPerson saleData salesProducts total]
          nextId := db.nextId + 1 }, .ok (mkSale db salesPerson saleData salesProducts total))

/-- The re-stock loop of `updateSaleStatus`: for each sale line, find the
product by id and add the line quantity back to stock. -/
def restock (ps : List Product) : List SalesProduct → List Product
  | [] => ps
  | sp :: rest =>
    match findProductById ps sp.productId with
    | some product =>
      restock (saveProduct ps { product with quantity := product.quantity + sp.quantity }) rest
    | none => restock ps rest

/-- `SalesService.updateSaleStatus`: a no-change request returns the sale
untouched; only the transition to `returned` is supported, and it
re-stocks every line before saving the new status. -/
def updateSaleStatus (db : DB) (saleId : Nat) (newStatus : SalesStatus) :
    DB × Except ApiError Sales :=
  match db.sales.find? (fun s => decide (s.id = saleId)) with
  | none => (db, .error ⟨"Sale record not found.", 404⟩)
  | some sale =>
    if sale.status = newStatus then
      (db, .ok sale)
    else if newStatus ≠ SalesStatus.returned then
      (db, .error ⟨"Only \"returned\" status change is currently supported.", 400⟩)
    else
      ({ db with
          products := restock db.products sale.products
          sales := saveSale db.sales { sale with status := newStatus } },
       .ok { sale with status := newStatus })

/-- One line of `recordInventory`'s input. -/
structure CountInput where
  productId : String
  counted : Int
  deriving DecidableEq, Repr

def productNotFoundInThisOutletMsg (pid : String) : String :=
  "Product with ID " ++ pid ++ " not found in this outlet."

/-- The `for (const item of productsData)` loop of `recordInventory`:
look each product up in the outlet and snapshot `amountInDb` from its
current quantity; no product is modified. -/
def buildInventoryLines (ps : List Product) (oid : String) :
    List CountInput → Except ApiError (List InventoryLine)
  | [] => .ok []
  | item :: rest =>
    match findProduct ps item.productId oid with
    | none => .error ⟨productNotFoundInThisOutletMsg item.productId, 404⟩
    | some product =>
      match buildInventoryLines ps oid rest with
      | .ok lines =>
        .ok ({ productId := product.id, name := product.name, counted := item.counted,
               amountInDb := product.quantity, reconciled := false } :: lines)
      | .error e => .error e

/-- The inventory row `recordInventory` persists: status `PENDING`,
lines as snapshotted by the loop. -/
def mkInventory (db : DB) (outlet : Outlet) (actioner : User)
    (lines : List InventoryLine) : Inventory :=
  { id := db.nextId, outletId := outlet.id, actionerId := actioner.id,
    products := lines, status := .pending }

/-- `InventoryService.recordInventory`. -/
def recordInventory (db : DB) (outletId actionerId : String)
    (productsData : List CountInput) : DB × Except ApiError Inventory :=
  match db.outlets.find? (fun o => decide (o.id = outletId)) with
  | none => (db, .error ⟨"Outlet not found.", 404⟩)
  | some outlet =>
    match db.users.find? (fun u => decide (u.id = actionerId)) with
    | none => (db, .error ⟨"Actioner user not found.", 404⟩)
    | some actioner =>
      match buildInventoryLines db.products outletId productsData with
      | .error e => (db, .error e)
      | .ok lines =>
        ({ db with
            inventories := db.inventories ++ [mkInventory db outlet actioner lines]
            nextId := db.nextId + 1 }, .ok (mkInventory db outlet actioner lines))

/-- One line of `reconcileInventory`'s input. -/
structure ReconInput where
  productId : String
  reconciledQuantity : Int
  deriving DecidableEq, Repr

/-- The `inventory.products.map(...)` of `reconcileInventory`: each line
with a matching request entry has the product's quantity overwritten and
the line's `counted`/`reconciled` fields rewritten; unmatched lines (and
their products) are untouched.  Product updates are issued left to
right, threading the product store. -/
def reconcileProducts (recs : List ReconInput) (ps : List Product) :
    List InventoryLine → List Product × List InventoryLine
  | [] => (ps, [])
  | item :: rest =>
    match recs.find? (fun rp => decide (rp.productId = item.productId)) with
    | some r =>
      match reconcileProducts recs (setQuantity ps item.productId r.reconciledQuantity) rest with
      | (ps', lines') =>
        (ps', { item with counted := r.reconciledQuantity, reconciled := true } :: lines')
    | none =>
      match reconcileProducts recs ps rest with
      | (ps', lines') => (ps', item :: lines')

/-- `InventoryService.reconcileInventory`. -/
def reconcileInventory (db : DB) (inventoryId : Nat) (recs : List ReconInput) :
    DB × Except ApiError Inventory :=
  match db.inventories.find? (fun i => decide (i.id = inventoryId)) with
  | none => (db, .error ⟨"Inventory record not found.", 404⟩)
  | some inventory =>
    if inventory.status = InventoryStatus.reconciled then
      (db, .error ⟨"Inventory already reconciled.", 400⟩)
    else
      match reconcileProducts recs db.products inventory.products with
      | (ps', lines') =>
        ({ db with
            products := ps'
            inventories := saveInventory db.inventories
              { inventory with products := lines', status := .reconciled } },
         .ok { inventory with products := lines', status := .reconciled })

/-! ### Operation sequences (for the reachable-state invariant) -/

/-- One call to an exposed mutating operation. -/
inductive Op where
  | recordSale (salesPersonId : String) (saleData : SaleData)
  | updateSaleStatus (saleId : Nat) (newStatus : SalesStatus)
  | recordInventory (outletId actionerId : String) (counts : List CountInput)
  | reconcileInventory (inventoryId : Nat) (recs : List ReconInput)
  deriving Repr

/-- The state after one operation (errors leave whatever partial state
the operation produced, as in the source). -/
def applyOp (db : DB) : Op → DB
  | .recordSale spid data => (recordSale db spid data).1
  | .updateSaleStatus sid st => (updateSaleStatus db sid st).1
  | .recordInventory oid aid counts => (recordInventory db oid aid counts).1
  | .reconcileInventory iid recs => (reconcileInventory db iid recs).1

/-- The validated preconditions on inputs: `RecordSaleDto` requires each
line quantity `≥ 1` (`@Min(1)`), and the reconcile payload requires
`reconciledQuantity ≥ 0` (`minimum: 0`). -/
def ValidOp : Op → Prop
  | .recordSale _ data => ∀ item ∈ data.products, 1 ≤ item.quantity
  | .reconcileInventory _ recs => ∀ r ∈ recs, 0 ≤ r.reconciledQuantity
  | _ => True

/-- All stored product quantities are non-negative. -/
def productsNonneg (ps : List Product) : Prop := ∀ p ∈ ps, 0 ≤ p.quantity

/-- All stored sale lines have non-negative quantity (needed so that a
return never re-stocks a negative amount). -/
def salesLinesNonneg (ss : List Sales) : Prop :=
  ∀ s ∈ ss, ∀ sp ∈ s.products, 0 ≤ sp.quantity

/-- The inductive invariant for the ledger state. -/
def LedgerInv (db : DB) : Prop :=
  productsNonneg db.products ∧ salesLinesNonneg db.sales

/-! ### Quantity-adjustment algebra (for the sale/return round trip) -/

/-- Add `d` to the quantity of the product with key `pid`. -/
def adjustFun (pid : String) (d : Int) (p : Product) : Product :=
  if p.id = pid then { p with quantity := p.quantity + d } else p

def adjust (ps : List Product) (pid : String) (d : Int) : List Product :=
  ps.map (adjustFun pid d)

def applyAdjusts (ps : List Product) : List (String × Int) → List Product
  | [] => ps
  | pr :: rest => applyAdjusts (adjust ps pr.1 pr.2) rest

/-- The pointwise effect of a chain of adjustments on one product. -/
def chainAdj (L : List (String × Int)) (p : Product) : Product :=
  L.foldl (fun q pr => adjustFun pr.1 pr.2 q) p

/-- Total delta a chain of adjustments applies to key `pid`. -/
def deltaFor (pid : String) : List (String × Int) → Int
  | [] => 0
  | pr :: rest => (if pr.1 = pid then pr.2 else 0) + deltaFor pid rest

/-- The decrements a sale's lines apply. -/
def decItems (sps : List SalesProduct) : List (String × Int) :=
  sps.map (fun sp => (sp.productId, -sp.quantity))

/-- The increments a return's re-stock loop applies. -/
def incItems (sps : List SalesProduct) : List (String × Int) :=
  sps.map (fun sp => (sp.productId, sp.quantity))

/-- Primary keys of the product rows. -/
def prodIds (ps : List Product) : List String := ps.map Product.id

/-! ### Characterization of `reconcileInventory` (claim C10) -/

/-- What `reconcileInventory` does to one stored inventory line: a line
whose `productId` has a matching request entry gets `counted`
overwritten and `reconciled := true`; otherwise it is unchanged. -/
def reconLineRule (recs : List ReconInput) (item : InventoryLine) : InventoryLine :=
  match recs.find? (fun rp => decide (rp.productId = item.productId)) with
  | some r => { item with counted := r.reconciledQuantity, reconciled := true }
  | none => item

/-- What `reconcileInventory` does to one product row: its quantity is
overwritten with the request's `reconciledQuantity` exactly when some
inventory line carries its id and the request matches that id. -/
def reconProductRule (recs : List ReconInput) (lines : List InventoryLine)
    (p : Product) : Product :=
  match recs.find? (fun rp => decide (rp.productId = p.id)) with
  | some r =>
    if lines.any (fun it => decide (it.productId = p.id)) then
      { p with quantity := r.reconciledQuantity }
    else p
  | none => p

/-- Pointwise effect of processing one inventory line on one product. -/
def lineStep (recs : List ReconInput) (p : Product) (item : InventoryLine) : Product :=
  match recs.find? (fun rp => decide (rp.productId = item.productId)) with
  | some r => if p.id = item.productId then { p with quantity := r.reconciledQuantity } else p
  | none => p

/-- Pointwise effect of the whole reconcile loop on one product. -/
def lineChain (recs : List ReconInput) (lines : List InventoryLine) (p : Product) : Product :=
  lines.foldl (lineStep recs) p

/-! ### The list queries `getAllSales` / `getAllInventories` (claim C9)

The query builder is modelled over the joined row data the SQL
predicates read: a sales row joined with its `salesPerson` user (looked
up by `salesPersonId`), an inventory row joined with its outlet.
`andWhere` clauses become boolean conjuncts; SQL `=` on a nullable
column or parameter is false when either side is null; `ILIKE
'%s%'` is case-insensitive substring; `skip`/`take` become
`drop`/`take` after sorting. -/

/-- SQL equality on nullable values: never true against NULL. -/
def sqlEq (a b : Option String) : Bool :=
  match a, b with
  | some x, some y => x == y
  | _, _ => false

/-- Whether `needle` is an initial segment of `hay`. -/
def leadMatch : List Char → List Char → Bool
  | [], _ => true
  | _ :: _, [] => false
  | x :: xs, y :: ys => x == y && leadMatch xs ys

/-- Whether `needle` occurs contiguously inside `hay`. -/
def infixMatch (needle : List Char) : List Char → Bool
  | [] => leadMatch needle []
  | y :: ys => leadMatch needle (y :: ys) || infixMatch needle ys

/-- `ILIKE '%pat%'`: case-insensitive containment. -/
def ilike (s : String) (pat : String) : Bool :=
  infixMatch pat.toLower.toList s.toLower.toList

/-- The columns of a `sales` row the list query touches, with the
joined product names of its lines.  (`sales.description` is referenced
by the search clause; it is carried as a nullable field.) -/
structure SalesRow where
  id : Nat
  salesPersonId : Option String
  status : SalesStatus
  paymentChannel : PaymentChannel
  description : Option String
  createdAt : Int
  productNames : List String
  deriving DecidableEq, Repr

/-- The columns of an `inventories` row the list query touches. -/
structure InventoryRow where
  id : Nat
  outletId : String
  actionerId : Option String
  status : InventoryStatus
  description : Option String
  createdAt : Int
  deriving DecidableEq, Repr

/-- An `outlets` row as seen by the inventory query's join. -/
structure OutletRow where
  id : String
  businessId : Option String
  deriving DecidableEq, Repr

/-- The requester shape `{ id, userType, businessId?, outletId? }`. -/
structure Requester where
  id : String
  userType : String
  businessId : Option String
  outletId : Option String
  deriving DecidableEq, Repr

/-- `SalesFilters` (all caller-supplied, all optional). -/
structure SalesFilters where
  outletId : Option String
  businessId : Option String
  salesPersonId : Option String
  status : Option SalesStatus
  paymentChannel : Option PaymentChannel
  search : Option String
  createdAtStart : Option Int
  createdAtEnd : Option Int
  deriving Repr

/-- `InventoryFilters`. -/
structure InventoryFilters where
  outletId : Option String
  businessId : Option String
  status : Option InventoryStatus
  actionerId : Option String
  search : Option String
  createdAtStart : Option Int
  createdAtEnd : Option Int
  deriving Repr

/-- `PaginationOptions` with the destructuring defaults
`page = 1, limit = 20, sortBy = 'createdAt', sortOrder = 'DESC'`. -/
structure PaginationOptions where
  page : Option Int
  limit : Option Int
  sortBy : Option String
  sortOrder : Option String
  deriving Repr

/-- The `leftJoinAndSelect('sales.salesPerson', ...)` join. -/
def salesPersonOf (users : List User) (row : SalesRow) : Option User :=
  row.salesPersonId.bind (fun spid => users.find? (fun u => decide (u.id = spid)))

/-- The RBAC `andWhere` block of `getAllSales`. -/
def rbacSales (requester : Requester) (users : List User) (row : SalesRow) : Bool :=
  if requester.userType == "owner" then
    sqlEq ((salesPersonOf users row).bind User.businessId) requester.businessId
  else if requester.userType == "store_executive" then
    sqlEq ((salesPersonOf users row).bind User.outletId) requester.outletId
  else if requester.userType == "sales_rep" then
    sqlEq row.salesPersonId (some requester.id)
  else
    true

/-- The caller-supplied filter `andWhere` block of `getAllSales`. -/
def filterSales (filters : SalesFilters) (users : List User) (row : SalesRow) : Bool :=
  (match filters.outletId with
   | some v => sqlEq ((salesPersonOf users row).bind User.outletId) (some v)
   | none => true) &&
  (match filters.businessId with
   | some v => sqlEq ((salesPersonOf users row).bind User.businessId) (some v)
   | none => true) &&
  (match filters.salesPersonId with
   | some v => sqlEq row.salesPersonId (some v)
   | none => true) &&
  (match filters.status with
   | some v => decide (row.status = v)
   | none => true) &&
  (match filters.paymentChannel with
   | some v => decide (row.paymentChannel = v)
   | none => true) &&
  (match filters.search with
   | some s =>
     (match row.description with
      | some d => ilike d s
      | none => false) || row.productNames.any (fun n => ilike n s)
   | none => true) &&
  (match filters.createdAtStart with
   | some t => decide (t ≤ row.createdAt)
   | none => true) &&
  (match filters.createdAtEnd with
   | some t => decide (row.createdAt ≤ t)
   | none => true)

/-- Insertion into a sorted list, for the `orderBy` model. -/
def insertLe {α : Type} (le : α → α → Bool) (x : α) : List α → List α
  | [] => [x]
  | y :: ys => if le x y then x :: y :: ys else y :: insertLe le x ys

/-- Insertion sort, the model of the SQL `ORDER BY`. -/
def sortLe {α : Type} (le : α → α → Bool) : List α → List α
  | [] => []
  | x :: xs => insertLe le x (sortLe le xs)

/-- Ordering on sales rows for `orderBy('sales.' + sortBy, sortOrder)`:
keyed on the named column, descending when `sortOrder = 'DESC'`. -/
def salesOrder (sortBy sortOrder : String) (a b : SalesRow) : Bool :=
  let key := fun r : SalesRow => if sortBy == "id" then Int.ofNat r.id else r.createdAt
  if sortOrder == "DESC" then key b ≤ key a else key a ≤ key b

def inventoryOrder (sortBy sortOrder : String) (a b : InventoryRow) : Bool :=
  let key := fun r : InventoryRow => if sortBy == "id" then Int.ofNat r.id else r.createdAt
  if sortOrder == "DESC" then key b ≤ key a else key a ≤ key b

/-- The paginated result shape. -/
structure PaginatedResult (α : Type) where
  data : List α
  totalItems : Nat
  totalPages : Int
  currentPage : Int
  itemsPerPage : Int
  deriving Repr

/-- Shared tail of both list queries: filter, count, sort, skip, take. -/
def runListQuery {α : Type} (pred : α → Bool) (le : α → α → Bool)
    (rows : List α) (page limit : Int) : PaginatedResult α :=
  let filtered := rows.filter pred
  let sorted := sortLe le filtered
  let offset := (page - 1) * limit
  { data := (sorted.drop offset.toNat).take limit.toNat
    totalItems := filtered.length
    totalPages := if 0 < limit then (Int.ofNat filtered.length + limit - 1) / limit else 0
    currentPage := page
    itemsPerPage := limit }

/-- `SalesService.getAllSales`. -/
def getAllSales (requester : Requester) (users : List User) (rows : List SalesRow)
    (filters : SalesFilters) (pagination : PaginationOptions) : PaginatedResult SalesRow :=
  let page := pagination.page.getD 1
  let limit := pagination.limit.getD 20
  let sortBy := pagination.sortBy.getD "createdAt"
  let sortOrder := pagination.sortOrder.getD "DESC"
  runListQuery
    (fun row => rbacSales requester users row && filterSales filters users row)
    (salesOrder sortBy sortOrder) rows page limit

/-- The `leftJoinAndSelect('inventory.outlet', ...)` join. -/
def outletOf (outlets : List OutletRow) (row : InventoryRow) : Option OutletRow :=
  outlets.find? (fun o => decide (o.id = row.outletId))

/-- The RBAC `andWhere` block of `getAllInventories` (a `store_executive`
or `sales_rep` is pinned to `inventory.outletId = requester.outletId`). -/
def rbacInventories (requester : Requester) (outlets : List OutletRow)
    (row : InventoryRow) : Bool :=
  if requester.userType == "owner" then
    sqlEq ((outletOf outlets row).bind OutletRow.businessId) requester.businessId
  else if requester.userType == "store_executive" || requester.userType == "sales_rep" then
    sqlEq (some row.outletId) requester.outletId
  else
    true

/-- The caller-supplied filter block of `getAllInventories`. -/
def filterInventories (filters : InventoryFilters) (outlets : List OutletRow)
    (row : InventoryRow) : Bool :=
  (match filters.outletId with
   | some v => sqlEq (some row.outletId) (some v)
   | none => true) &&
  (match filters.businessId with
   | some v => sqlEq ((outletOf outlets row).bind OutletRow.businessId) (some v)
   | none => true) &&
  (match filters.status with
   | some v => decide (row.status = v)
   | none => true) &&
  (match filters.actionerId with
   | some v => sqlEq row.actionerId (some v)
   | none => true) &&
  (match filters.search with
   | some s =>
     match row.description with
     | some d => ilike d s
     | none => false
   | none => true) &&
  (match filters.createdAtStart with
   | some t => decide (t ≤ row.createdAt)
   | none => true) &&
  (match filters.createdAtEnd with
   | some t => decide (row.createdAt ≤ t)
   | none => true)

/-- `InventoryService.getAllInventories`. -/
def getAllInventories (requester : Requester) (outlets : List OutletRow)
    (rows : List InventoryRow) (filters : InventoryFilters)
    (pagination : PaginationOptions) : PaginatedResult InventoryRow :=
  let page := pagination.page.getD 1
  let limit := pagination.limit.getD 20
  let sortBy := pagination.sortBy.getD "createdAt"
  let sortOrder := pagination.sortOrder.getD "DESC"
  runListQuery
    (fun row => rbacInventories requester outlets row && filterInventories filters outlets row)
    (inventoryOrder sortBy sortOrder) rows page limit

/-! ### Miscellaneous helpers for claim statements -/

/-- Whether a call threw. -/
def isErr {α : Type} : Except ApiError α → Bool
  | .error _ => true
  | .ok _ => false

/-- The status of a successfully recorded sale, if any. -/
def saleStatusOf : Except ApiError Sales → Option SalesStatus
  | .ok s => some s.status
  | .error _ => none

/-- `ConflictError` from `utils/apiError.ts`: the repository's own error
subclass for "Resource already exists or conflicts with existing data",
constructed with HTTP status 409 (the code used elsewhere in the
repository for duplicate emails, business names and subscription
titles).  `reconcileInventory` does not throw it — it throws a plain
`ApiError` with status 400. -/
def ConflictError (message : String) : ApiError := ⟨message, 409⟩

/-! ### Concrete fixtures -/

def exUser : User := ⟨"u1", "sales_rep", some "b1", some "o1"⟩

def exP1 : Product := ⟨"p1", "o1", "Widget", 5, 5⟩

def exP2 : Product := ⟨"p2", "o1", "Gadget", 4, 5⟩

def exDB : DB := ⟨[exUser], [⟨"o1", "Main"⟩], [exP1, exP2], [], [], 0⟩

/-- A two-line sale whose second line exceeds stock. -/
def exSaleDataInsufficient : SaleData :=
  ⟨[⟨"p1", 3⟩, ⟨"p2", 10⟩], none, none, 0, .cash, none⟩

/-- A valid two-line sale (spec scenario style: discount 2, paid 13). -/
def exSaleDataOk : SaleData :=
  ⟨[⟨"p1", 3⟩, ⟨"p2", 2⟩], none, some 2, 13, .cash, none⟩

/-- A sale that supplies the optional `status` field as `pending`. -/
def exSaleDataPending : SaleData :=
  ⟨[⟨"p1", 3⟩], none, none, 0, .cash, some .pending⟩

/-- A sale that supplies the optional `status` field as `returned`. -/
def exSaleDataReturnedStatus : SaleData :=
  ⟨[⟨"p1", 3⟩], none, none, 0, .cash, some .returned⟩

/-- The sale `recordSale exDB "u1" exSaleDataOk` persists. -/
def exSaleOk : Sales :=
  ⟨0, [⟨"p1", "Widget", 3, 5⟩, ⟨"p2", "Gadget", 2, 4⟩], 21, some 2, 13, 8, .cash,
   .completed, some "u1", none⟩

/-- The state after `recordSale exDB "u1" exSaleDataOk`. -/
def exDBAfterOk : DB :=
  ⟨[exUser], [⟨"o1", "Main"⟩],
   [{ exP1 with quantity := 2 }, { exP2 with quantity := 3 }], [exSaleOk], [], 1⟩

/-- The state after returning that sale. -/
def exDBAfterRet : DB :=
  ⟨[exUser], [⟨"o1", "Main"⟩], [exP1, exP2],
   [{ exSaleOk with status := .returned }], [], 1⟩

/-- A sale already in `returned` state. -/
def exReturnedSale : Sales :=
  ⟨0, [⟨"p1", "Widget", 3, 5⟩], 15, none, 0, 15, .cash, .returned, some "u1", none⟩

def exDBReturned : DB :=
  ⟨[exUser], [⟨"o1", "Main"⟩], [exP1, exP2], [exReturnedSale], [], 1⟩

/-- An inventory record already reconciled. -/
def exReconInv : Inventory :=
  ⟨0, "o1", "u1", [⟨"p1", "Widget", 8, 5, true⟩], .reconciled⟩

def exDBRecon : DB :=
  ⟨[exUser], [⟨"o1", "Main"⟩], [exP1, exP2], [], [exReconInv], 1⟩

/-- A pending inventory record over both products. -/
def exPendingInv : Inventory :=
  ⟨0, "o1", "u1", [⟨"p1", "Widget", 8, 5, false⟩, ⟨"p2", "Gadget", 4, 5, false⟩], .pending⟩

def exDBPending : DB :=
  ⟨[exUser], [⟨"o1", "Main"⟩], [exP1, exP2], [], [exPendingInv], 1⟩

/-- The inventory record `recordInventory exDB "o1" "u1" [⟨"p1", 8⟩]`
persists. -/
def exInvRecorded : Inventory :=
  ⟨0, "o1", "u1", [⟨"p1", "Widget", 8, 5, false⟩], .pending⟩

/-- The state after that `recordInventory` call. -/
def exDBInvAfter : DB :=
  ⟨[exUser], [⟨"o1", "Main"⟩], [exP1, exP2], [], [exInvRecorded], 1⟩

def exRequesterSR : Requester := ⟨"u1", "sales_rep", some "b1", some "o1"⟩

def exRequesterSE : Requester := ⟨"u2", "store_executive", some "b1", some "o1"⟩

def exSalesRow : SalesRow := ⟨0, some "u1", .completed, .cash, none, 100, ["Widget"]⟩

def exInvRow : InventoryRow := ⟨0, "o1", some "u2", .pending, none, 100⟩

def exSalesFiltersNone : SalesFilters := ⟨none, none, none, none, none, none, none, none⟩

def exInvFiltersNone : InventoryFilters := ⟨none, none, none, none, none, none, none⟩

def exPagDefault : PaginationOptions := ⟨none, none, none, none⟩

/-! ## Theorems -/

/-- C1: a multi-line `recordSale` whose second line fails the stock
check throws the InsufficientStock error (400) and persists no Sales
row, but the decrement already saved for the first line is NOT rolled
back: the quantity of `p1` drops from 5 to 2 even though the sale
fails.  The service runs no transaction, so the all-or-nothing rollback
the spec requires does not happen. -/
theorem recordSale_insufficient_partial_state :
    (recordSale exDB "u1" exSaleDataInsufficient).2 =
      .error ⟨insufficientStockMsg exP2, 400⟩
    ∧ (recordSale exDB "u1" exSaleDataInsufficient).1.sales = exDB.sales
    ∧ (recordSale exDB "u1" exSaleDataInsufficient).1.products =
      [{ exP1 with quantity := 2 }, exP2]
    ∧ (recordSale exDB "u1" exSaleDataInsufficient).1.products ≠ exDB.products := by
  refine ⟨rfl, rfl, rfl, ?_⟩
  decide

/-- C4 (counterexample): calling `updateSaleStatus(saleId, RETURNED)` on
a sale that is already RETURNED does not fail — the service returns the
sale with no error (early `// No change needed` return), leaving the
state untouched. -/
theorem repeat_return_no_failure_cex :
    isErr (updateSaleStatus exDBReturned 0 .returned).2 = false
    ∧ (updateSaleStatus exDBReturned 0 .returned).1 = exDBReturned := by
  exact ⟨rfl, rfl⟩

/-- C4 (amended): a repeated `updateSaleStatus(saleId, RETURNED)` on an
already-returned sale succeeds as a no-op: it returns the stored sale
unchanged and mutates nothing, so no product quantity is incremented a
second time. -/
theorem repeat_return_noop (db : DB) (saleId : Nat) (sale : Sales)
    (hfind : db.sales.find? (fun s => decide (s.id = saleId)) = some sale)
    (hret : sale.status = SalesStatus.returned) :
    updateSaleStatus db saleId .returned = (db, .ok sale) := by
  unfold updateSaleStatus
  rw [hfind]
  simp [hret]

/-- Witness for C4's amended theorem at a concrete state. -/
theorem repeat_return_noop_witness :
    updateSaleStatus exDBReturned 0 .returned = (exDBReturned, .ok exReturnedSale) :=
  repeat_return_noop exDBReturned 0 exReturnedSale (by decide) (by decide)

/-- C6 (counterexample): reconciling an already-RECONCILED record does
reject and leaves products unchanged, but the thrown error carries HTTP
status 400 — it is not the repository's own `ConflictError` (409), the
kind its error hierarchy reserves for already-exists/conflict
rejections and the spec's taxonomy names Conflict. -/
theorem reconcile_conflict_code_cex :
    (reconcileInventory exDBRecon 0 []).2 =
      .error ⟨"Inventory already reconciled.", 400⟩
    ∧ (reconcileInventory exDBRecon 0 []).1.products = exDBRecon.products
    ∧ 400 ≠ (ConflictError "Inventory already reconciled.").statusCode := by
  refine ⟨rfl, rfl, ?_⟩
  decide

/-- C6 (amended): `reconcileInventory` on a record whose status is
RECONCILED fails with the 400 error "Inventory already reconciled." and
returns the state completely unchanged — in particular every
`Product.quantity` is untouched, the rejection happening before any
stock mutation. -/
theorem already_reconciled_rejected (db : DB) (invId : Nat) (recs : List ReconInput)
    (inv : Inventory)
    (hfind : db.inventories.find? (fun i => decide (i.id = invId)) = some inv)
    (hst : inv.status = InventoryStatus.reconciled) :
    reconcileInventory db invId recs =
      (db, .error ⟨"Inventory already reconciled.", 400⟩) := by
  unfold reconcileInventory
  rw [hfind]
  simp [hst]

/-- Witness for C6's amended theorem at a concrete state. -/
theorem already_reconciled_rejected_witness :
    reconcileInventory exDBRecon 0 [⟨"p1", 9⟩] =
      (exDBRecon, .error ⟨"Inventory already reconciled.", 400⟩) :=
  already_reconciled_rejected exDBRecon 0 [⟨"p1", 9⟩] exReconInv (by decide) (by decide)

/-- Inversion of a successful `recordSale`: the sales person was found,
the line loop succeeded, and the returned sale and state are exactly the
constructed ones. -/
theorem recordSale_ok_inversion (db : DB) (spid : String) (data : SaleData)
    (db' : DB) (sale : Sales)
    (h : recordSale db spid data = (db', .ok sale)) :
    ∃ sp ps' sps total,
      db.users.find? (fun u => decide (u.id = spid)) = some sp
      ∧ processSaleLines db.products sp.outletId data.products = (ps', .ok (sps, total))
      ∧ sale = mkSale db sp data sps total
      ∧ db' = { db with
                  products := ps'
                  sales := db.sales ++ [mkSale db sp data sps total]
                  nextId := db.nextId + 1 } := by
  unfold recordSale at h
  split at h
  · injection h with h1 h2
    cases h2
  · rename_i salesPerson hu
    split at h
    · injection h with h1 h2
      cases h2
    · rename_i ps' sps total heq
      injection h with h1 h2
      injection h2 with h3
      subst h3
      subst h1
      exact ⟨salesPerson, ps', sps, total, hu, heq, rfl, rfl⟩

/-- C7 (counterexample): `recordSale` with a caller-supplied
`status: pending` (allowed by `RecordSaleDto`) persists a sale whose
status is PENDING, not COMPLETED, because `...saleData` is spread into
the created row. -/
theorem sale_status_override_cex :
    saleStatusOf (recordSale exDB "u1" exSaleDataPending).2 = some SalesStatus.pending
    ∧ saleStatusOf (recordSale exDB "u1" exSaleDataPending).2 ≠ some SalesStatus.completed := by
  refine ⟨rfl, ?_⟩
  decide

/-- C7 (amended): every sale persisted by `recordSale` has status
`saleData.status` when the caller supplied one and the entity default
COMPLETED otherwise; in particular a request that omits `status` always
yields a COMPLETED sale. -/
theorem sale_status_default (db : DB) (spid : String) (data : SaleData)
    (db' : DB) (sale : Sales)
    (h : recordSale db spid data = (db', .ok sale)) :
    sale.status = data.status.getD .completed := by
  obtain ⟨sp, ps', sps, total, -, -, hsale, -⟩ :=
    recordSale_ok_inversion db spid data db' sale h
  rw [hsale]
  rfl

/-- Witness for C7's amended theorem on a status-omitting request. -/
theorem sale_status_default_witness :
    exSaleOk.status = (exSaleDataOk.status.getD .completed) :=
  sale_status_default exDB "u1" exSaleDataOk exDBAfterOk exSaleOk (by rfl)

/-- JS truthiness on the optional discount agrees with defaulting it
to zero. -/
theorem discountApplied_eq (o : Option Int) : discountApplied o = o.getD 0 := by
  cases o with
  | none => rfl
  | some d =>
    by_cases hd : d = 0 <;> simp [discountApplied, hd]

/-- The accumulated total of a successful line loop is the sum of
`quantity × priceAtSale` over the produced sale lines. -/
theorem processSaleLines_ok_total (oid : Option String) :
    ∀ (items : List SaleLineInput) (ps ps' : List Product)
      (sps : List SalesProduct) (total : Int),
      processSaleLines ps oid items = (ps', .ok (sps, total)) →
      total = (sps.map (fun sp => sp.quantity * sp.priceAtSale)).sum := by
  intro items
  induction items with
  | nil =>
    intro ps ps' sps total h
    unfold processSaleLines at h
    injection h with h1 h2
    injection h2 with h3
    injection h3 with h4 h5
    subst h4
    subst h5
    simp
  | cons item rest ih =>
    intro ps ps' sps total h
    unfold processSaleLines at h
    split at h
    · injection h with h1 h2
      cases h2
    · rename_i product hfind
      split at h
      · injection h with h1 h2
        cases h2
      · split at h
        · rename_i ps₂ sps₂ total₂ hrec
          injection h with h1 h2
          injection h2 with h3
          injection h3 with h4 h5
          subst h4
          subst h5
          have ht := ih _ _ _ _ hrec
          simp only [List.map_cons, List.sum_cons]
          rw [← ht]
          ring
        · injection h with h1 h2
          cases h2

/-- C3: every sale persisted by `recordSale` satisfies
`totalAmount = Σ(line.quantity × line.priceAtSale) − discount` and
`remainingToPay = totalAmount − amountPaid`, with `priceAtSale` the
product price snapshotted at sale time. -/
theorem sale_totals_invariant (db : DB) (spid : String) (data : SaleData)
    (db' : DB) (sale : Sales)
    (h : recordSale db spid data = (db', .ok sale)) :
    sale.totalAmount =
      (sale.products.map (fun sp => sp.quantity * sp.priceAtSale)).sum - sale.discount.getD 0
    ∧ sale.remainingToPay = sale.totalAmount - sale.amountPaid := by
  obtain ⟨sp, ps', sps, total, -, hlines, hsale, -⟩ :=
    recordSale_ok_inversion db spid data db' sale h
  have ht := processSaleLines_ok_total _ data.products db.products ps' sps total hlines
  subst hsale
  refine ⟨?_, rfl⟩
  show total - discountApplied data.discount =
    (sps.map (fun sp => sp.quantity * sp.priceAtSale)).sum - data.discount.getD 0
  rw [← ht, discountApplied_eq]

/-- Witness for C3 on a concrete sale (3×5 + 2×4 − 2 = 21, 21 − 13 = 8). -/
theorem sale_totals_invariant_witness :
    (exSaleOk.totalAmount =
      (exSaleOk.products.map (fun sp => sp.quantity * sp.priceAtSale)).sum
        - exSaleOk.discount.getD 0)
    ∧ exSaleOk.remainingToPay = exSaleOk.totalAmount - exSaleOk.amountPaid :=
  sale_totals_invariant exDB "u1" exSaleDataOk exDBAfterOk exSaleOk (by rfl)

/-- Every line stored by a successful `recordInventory` loop snapshots
the live product: `reconciled = false` and `amountInDb` is the quantity
of the product found in the outlet. -/
theorem buildInventoryLines_ok_spec (oid : String) :
    ∀ (counts : List CountInput) (ps : List Product) (lines : List InventoryLine),
      buildInventoryLines ps oid counts = .ok lines →
      ∀ line ∈ lines, line.reconciled = false
        ∧ ∃ p, findProduct ps line.productId oid = some p
            ∧ line.amountInDb = p.quantity := by
  intro counts
  induction counts with
  | nil =>
    intro ps lines h
    unfold buildInventoryLines at h
    injection h with h1
    subst h1
    intro line hline
    cases hline
  | cons item rest ih =>
    intro ps lines h
    unfold buildInventoryLines at h
    split at h
    · injection h
    · rename_i product hfind
      split at h
      · rename_i lines₂ hrec
        injection h with h1
        subst h1
        intro line hline
        cases hline with
        | head =>
          refine ⟨rfl, product, ?_, rfl⟩
          have hfind' : ps.find?
              (fun p => decide (p.id = item.productId ∧ p.outletId = oid)) = some product := hfind
          have hpid := List.find?_some hfind'
          simp only [decide_eq_true_eq] at hpid
          show findProduct ps product.id oid = some product
          rw [hpid.1]
          exact hfind
        | tail _ hmem =>
          exact ih ps lines₂ hrec line hmem
      · injection h

/-- C8: a successful `recordInventory` modifies no product (the product
store is identical before and after), creates the record with status
PENDING, and every stored line has `reconciled = false` with
`amountInDb` snapshotting the product's quantity at record time. -/
theorem record_inventory_snapshot (db : DB) (oid aid : String)
    (counts : List CountInput) (db' : DB) (inv : Inventory)
    (h : recordInventory db oid aid counts = (db', .ok inv)) :
    db'.products = db.products
    ∧ inv.status = InventoryStatus.pending
    ∧ ∀ line ∈ inv.products, line.reconciled = false
        ∧ ∃ p, findProduct db.products line.productId oid = some p
            ∧ line.amountInDb = p.quantity := by
  unfold recordInventory at h
  split at h
  · injection h with h1 h2
    cases h2
  · rename_i outlet hout
    split at h
    · injection h with h1 h2
      cases h2
    · rename_i actioner hact
      split at h
      · injection h with h1 h2
        cases h2
      · rename_i lines hlines
        injection h with h1 h2
        injection h2 with h3
        subst h3
        subst h1
        exact ⟨rfl, rfl, buildInventoryLines_ok_spec oid counts db.products lines hlines⟩

/-- Witness for C8 on a concrete count. -/
theorem record_inventory_snapshot_witness :
    exDBInvAfter.products = exDB.products
    ∧ exInvRecorded.status = InventoryStatus.pending
    ∧ ∀ line ∈ exInvRecorded.products, line.reconciled = false
        ∧ ∃ p, findProduct exDB.products line.productId "o1" = some p
            ∧ line.amountInDb = p.quantity :=
  record_inventory_snapshot exDB "o1" "u1" [⟨"p1", 8⟩] exDBInvAfter exInvRecorded (by rfl)

/-- The lines stored back by the reconcile loop are exactly the original
lines transformed by `reconLineRule`. -/
theorem reconcileProducts_lines (recs : List ReconInput) :
    ∀ (lines : List InventoryLine) (ps : List Product),
      (reconcileProducts recs ps lines).2 = lines.map (reconLineRule recs) := by
  intro lines
  induction lines with
  | nil => intro ps; rfl
  | cons item rest ih =>
    intro ps
    unfold reconcileProducts
    cases hfind : recs.find? (fun rp => decide (rp.productId = item.productId)) with
    | some r =>
      have ih' := ih (setQuantity ps item.productId r.reconciledQuantity)
      cases hrp : reconcileProducts recs (setQuantity ps item.productId r.reconciledQuantity) rest with
      | mk ps' lines' =>
        rw [hrp] at ih'
        have ih2 : lines' = rest.map (reconLineRule recs) := ih'
        have hhead : reconLineRule recs item =
            { item with counted := r.reconciledQuantity, reconciled := true } := by
          simp [reconLineRule, hfind]
        simp only [hrp, List.map_cons, hhead]
        show ({ item with counted := r.reconciledQuantity, reconciled := true } :: lines')
          = { item with counted := r.reconciledQuantity, reconciled := true }
            :: rest.map (reconLineRule recs)
        rw [ih2]
    | none =>
      have ih' := ih ps
      cases hrp : reconcileProducts recs ps rest with
      | mk ps' lines' =>
        rw [hrp] at ih'
        have ih2 : lines' = rest.map (reconLineRule recs) := ih'
        have hhead : reconLineRule recs item = item := by
          simp [reconLineRule, hfind]
        simp only [hrp, List.map_cons, hhead]
        show (item :: lines') = item :: rest.map (reconLineRule recs)
        rw [ih2]

/-- The product store after the reconcile loop is the pointwise chain of
per-line updates. -/
theorem reconcileProducts_products (recs : List ReconInput) :
    ∀ (lines : List InventoryLine) (ps : List Product),
      (reconcileProducts recs ps lines).1 = ps.map (lineChain recs lines) := by
  intro lines
  induction lines with
  | nil =>
    intro ps
    show ps = ps.map (lineChain recs [])
    exact (List.map_id' ps).symm
  | cons item rest ih =>
    intro ps
    unfold reconcileProducts
    cases hfind : recs.find? (fun rp => decide (rp.productId = item.productId)) with
    | some r =>
      have ih' := ih (setQuantity ps item.productId r.reconciledQuantity)
      cases hrp : reconcileProducts recs (setQuantity ps item.productId r.reconciledQuantity) rest with
      | mk ps' lines' =>
        rw [hrp] at ih'
        have ih2 : ps' = (setQuantity ps item.productId r.reconciledQuantity).map
            (lineChain recs rest) := ih'
        simp only [hrp]
        show ps' = ps.map (lineChain recs (item :: rest))
        rw [ih2]
        show (ps.map fun p => if p.id = item.productId
              then { p with quantity := r.reconciledQuantity } else p).map (lineChain recs rest)
            = ps.map (lineChain recs (item :: rest))
        rw [List.map_map]
        apply List.map_congr_left
        intro p _
        show lineChain recs rest
            (if p.id = item.productId then { p with quantity := r.reconciledQuantity } else p)
          = lineChain recs rest (lineStep recs p item)
        have hstep : lineStep recs p item =
            (if p.id = item.productId then { p with quantity := r.reconciledQuantity } else p) := by
          simp [lineStep, hfind]
        rw [hstep]
    | none =>
      have ih' := ih ps
      cases hrp : reconcileProducts recs ps rest with
      | mk ps' lines' =>
        rw [hrp] at ih'
        have ih2 : ps' = ps.map (lineChain recs rest) := ih'
        simp only [hrp]
        show ps' = ps.map (lineChain recs (item :: rest))
        rw [ih2]
        apply List.map_congr_left
        intro p _
        show lineChain recs rest p = lineChain recs rest (lineStep recs p item)
        have hstep : lineStep recs p item = p := by
          simp [lineStep, hfind]
        rw [hstep]

/-- The pointwise chain of per-line updates is the per-product rule:
a product is overwritten exactly when some line carries its id and the
request matches that id. -/
theorem lineChain_eq_rule (recs : List ReconInput) :
    ∀ (lines : List InventoryLine) (p : Product),
      lineChain recs lines p = reconProductRule recs lines p := by
  intro lines
  induction lines with
  | nil =>
    intro p
    show p = reconProductRule recs [] p
    cases hf : recs.find? (fun rp => decide (rp.productId = p.id)) <;>
      simp [reconProductRule, hf]
  | cons item rest ih =>
    intro p
    show lineChain recs rest (lineStep recs p item) = reconProductRule recs (item :: rest) p
    by_cases hid : p.id = item.productId
    · cases hf : recs.find? (fun rp => decide (rp.productId = item.productId)) with
      | some r =>
        have hf' : recs.find? (fun rp => decide (rp.productId = p.id)) = some r := by
          rw [hid]; exact hf
        have hstep : lineStep recs p item = { p with quantity := r.reconciledQuantity } := by
          simp [lineStep, hf, hid]
        rw [hstep, ih]
        have hid' : item.productId = p.id := hid.symm
        by_cases hany : rest.any (fun it => decide (it.productId = p.id)) = true <;>
          simp [reconProductRule, hf', hid', hany]
      | none =>
        have hf' : recs.find? (fun rp => decide (rp.productId = p.id)) = none := by
          rw [hid]; exact hf
        have hstep : lineStep recs p item = p := by
          simp [lineStep, hf]
        rw [hstep, ih]
        simp [reconProductRule, hf']
    · have hstep : lineStep recs p item = p := by
        unfold lineStep
        cases hf : recs.find? (fun rp => decide (rp.productId = item.productId)) <;>
          simp [hid]
      rw [hstep, ih]
      have hid' : ¬(item.productId = p.id) := fun hh => hid hh.symm
      unfold reconProductRule
      cases hf : recs.find? (fun rp => decide (rp.productId = p.id)) with
      | none => rfl
      | some r => simp [List.any_cons, hid']

/-- C10: a successful `reconcileInventory` rewrites each stored line by
`reconLineRule` (a matched line's `counted` is overwritten with the
request's `reconciledQuantity` — the original physical count is lost —
and `reconciled` is set; an unmatched line is unchanged), sets every
matched product's quantity to the request value while leaving unmatched
products untouched (`reconProductRule`), and stores the record with
status RECONCILED. -/
theorem reconcile_characterization (db : DB) (invId : Nat) (recs : List ReconInput)
    (inv : Inventory)
    (hfind : db.inventories.find? (fun i => decide (i.id = invId)) = some inv)
    (hst : inv.status ≠ InventoryStatus.reconciled) :
    reconcileInventory db invId recs =
      ({ db with
          products := db.products.map (reconProductRule recs inv.products)
          inventories := saveInventory db.inventories
            { inv with products := inv.products.map (reconLineRule recs),
                       status := .reconciled } },
       .ok { inv with products := inv.products.map (reconLineRule recs),
                      status := .reconciled }) := by
  unfold reconcileInventory
  simp only [hfind]
  rw [if_neg hst]
  cases hrp : reconcileProducts recs db.products inv.products with
  | mk ps' lines' =>
    have h1 := reconcileProducts_products recs inv.products db.products
    have h2 := reconcileProducts_lines recs inv.products db.products
    rw [hrp] at h1 h2
    have h1' : ps' = db.products.map (lineChain recs inv.products) := h1
    have h2' : lines' = inv.products.map (reconLineRule recs) := h2
    subst h1'
    subst h2'
    have hmap : db.products.map (lineChain recs inv.products)
        = db.products.map (reconProductRule recs inv.products) :=
      List.map_congr_left (fun p _ => lineChain_eq_rule recs inv.products p)
    simp only [hrp, hmap]

/-- Witness for C10 on a concrete pending inventory with one matched and
one unmatched line. -/
theorem reconcile_characterization_witness :
    reconcileInventory exDBPending 0 [⟨"p1", 7⟩] =
      ({ exDBPending with
          products := exDBPending.products.map (reconProductRule [⟨"p1", 7⟩] exPendingInv.products)
          inventories := saveInventory exDBPending.inventories
            { exPendingInv with
                products := exPendingInv.products.map (reconLineRule [⟨"p1", 7⟩]),
                status := .reconciled } },
       .ok { exPendingInv with
              products := exPendingInv.products.map (reconLineRule [⟨"p1", 7⟩]),
              status := .reconciled }) :=
  reconcile_characterization exDBPending 0 [⟨"p1", 7⟩] exPendingInv (by rfl) (by decide)

/-- A member of `saveProduct ps p` is `p` or one of the old rows. -/
theorem mem_saveProduct {ps : List Product} {p q : Product}
    (h : q ∈ saveProduct ps p) : q = p ∨ q ∈ ps := by
  unfold saveProduct at h
  obtain ⟨x, hx, hxq⟩ := List.mem_map.mp h
  by_cases hid : x.id = p.id
  · rw [if_pos hid] at hxq
    exact Or.inl hxq.symm
  · rw [if_neg hid] at hxq
    exact Or.inr (hxq ▸ hx)

/-- A member of `saveSale ss s` is `s` or one of the old rows. -/
theorem mem_saveSale {ss : List Sales} {s t : Sales}
    (h : t ∈ saveSale ss s) : t = s ∨ t ∈ ss := by
  unfold saveSale at h
  obtain ⟨x, hx, hxt⟩ := List.mem_map.mp h
  by_cases hid : x.id = s.id
  · rw [if_pos hid] at hxt
    exact Or.inl hxt.symm
  · rw [if_neg hid] at hxt
    exact Or.inr (hxt ▸ hx)

/-- `setQuantity` to a non-negative value preserves non-negativity. -/
theorem setQuantity_nonneg {ps : List Product} {pid : String} {v : Int}
    (h : productsNonneg ps) (hv : 0 ≤ v) : productsNonneg (setQuantity ps pid v) := by
  intro q hq
  unfold setQuantity at hq
  obtain ⟨x, hx, hxq⟩ := List.mem_map.mp hq
  by_cases hid : x.id = pid
  · rw [if_pos hid] at hxq
    rw [← hxq]
    exact hv
  · rw [if_neg hid] at hxq
    rw [← hxq]
    exact h x hx

/-- The sale-line loop keeps every product quantity non-negative — in
the partial state it leaves behind on failure as well. -/
theorem processSaleLines_nonneg (oid : Option String) :
    ∀ (items : List SaleLineInput) (ps : List Product),
      productsNonneg ps → productsNonneg (processSaleLines ps oid items).1 := by
  intro items
  induction items with
  | nil => intro ps h; exact h
  | cons item rest ih =>
    intro ps h
    unfold processSaleLines
    cases hfind : findProductForSale ps item.productId oid with
    | none => simp only [hfind]; exact h
    | some product =>
      simp only [hfind]
      by_cases hlt : product.quantity < item.quantity
      · rw [if_pos hlt]; exact h
      · rw [if_neg hlt]
        have hps2 : productsNonneg
            (saveProduct ps { product with quantity := product.quantity - item.quantity }) := by
          intro q hq
          rcases mem_saveProduct hq with rfl | hq'
          · show 0 ≤ product.quantity - item.quantity
            omega
          · exact h q hq'
        have hrec := ih _ hps2
        cases hrp : processSaleLines
            (saveProduct ps { product with quantity := product.quantity - item.quantity })
            oid rest with
        | mk ps'' r =>
          rw [hrp] at hrec
          have h2 : productsNonneg ps'' := hrec
          cases r with
          | ok pr =>
            cases pr with
            | mk sps tot => simp only [hrp]; exact h2
          | error e => simp only [hrp]; exact h2

/-- Every line of a successful sale takes its quantity from the input. -/
theorem processSaleLines_line_quantities (oid : Option String) :
    ∀ (items : List SaleLineInput) (ps ps' : List Product)
      (sps : List SalesProduct) (total : Int),
      processSaleLines ps oid items = (ps', .ok (sps, total)) →
      ∀ sp ∈ sps, ∃ item ∈ items, sp.quantity = item.quantity := by
  intro items
  induction items with
  | nil =>
    intro ps ps' sps total h
    unfold processSaleLines at h
    injection h with h1 h2
    injection h2 with h3
    injection h3 with h4 h5
    subst h4
    intro sp hsp
    cases hsp
  | cons item rest ih =>
    intro ps ps' sps total h
    unfold processSaleLines at h
    split at h
    · injection h with h1 h2
      cases h2
    · rename_i product hfind
      split at h
      · injection h with h1 h2
        cases h2
      · split at h
        · rename_i ps₂ sps₂ total₂ hrec
          injection h with h1 h2
          injection h2 with h3
          injection h3 with h4 h5
          subst h4
          intro sp hsp
          cases hsp with
          | head => exact ⟨item, List.mem_cons_self item rest, rfl⟩
          | tail _ hmem =>
            obtain ⟨it, hit, hq⟩ := ih _ _ _ _ hrec sp hmem
            exact ⟨it, List.mem_cons_of_mem item hit, hq⟩
        · injection h with h1 h2
          cases h2

/-- Re-stocking non-negative line quantities preserves non-negativity. -/
theorem restock_nonneg :
    ∀ (sps : List SalesProduct) (ps : List Product),
      productsNonneg ps → (∀ sp ∈ sps, 0 ≤ sp.quantity) →
      productsNonneg (restock ps sps) := by
  intro sps
  induction sps with
  | nil => intro ps h _; exact h
  | cons sp rest ih =>
    intro ps h hsp
    unfold restock
    cases hfind : findProductById ps sp.productId with
    | none =>
      simp only [hfind]
      exact ih ps h (fun x hx => hsp x (List.mem_cons_of_mem sp hx))
    | some product =>
      simp only [hfind]
      apply ih
      · intro q hq
        rcases mem_saveProduct hq with rfl | hq'
        · show 0 ≤ product.quantity + sp.quantity
          have h1 := h product (List.mem_of_find?_eq_some hfind)
          have h2 := hsp sp (List.mem_cons_self sp rest)
          omega
        · exact h q hq'
      · exact fun x hx => hsp x (List.mem_cons_of_mem sp hx)

/-- The reconcile loop with non-negative request quantities preserves
product non-negativity. -/
theorem reconcileProducts_nonneg (recs : List ReconInput)
    (hrecs : ∀ r ∈ recs, 0 ≤ r.reconciledQuantity) :
    ∀ (lines : List InventoryLine) (ps : List Product),
      productsNonneg ps → productsNonneg (reconcileProducts recs ps lines).1 := by
  intro lines
  induction lines with
  | nil => intro ps h; exact h
  | cons item rest ih =>
    intro ps h
    unfold reconcileProducts
    cases hfind : recs.find? (fun rp => decide (rp.productId = item.productId)) with
    | some r =>
      have hr : 0 ≤ r.reconciledQuantity := hrecs r (List.mem_of_find?_eq_some hfind)
      have hrec := ih (setQuantity ps item.productId r.reconciledQuantity)
        (setQuantity_nonneg h hr)
      cases hrp : reconcileProducts recs
          (setQuantity ps item.productId r.reconciledQuantity) rest with
      | mk ps' lines' =>
        rw [hrp] at hrec
        have h2 : productsNonneg ps' := hrec
        simp only [hfind, hrp]
        exact h2
    | none =>
      have hrec := ih ps h
      cases hrp : reconcileProducts recs ps rest with
      | mk ps' lines' =>
        rw [hrp] at hrec
        have h2 : productsNonneg ps' := hrec
        simp only [hfind, hrp]
        exact h2

/-- One exposed operation with validated inputs preserves the ledger
invariant. -/
theorem applyOp_preserves_inv (db : DB) (op : Op)
    (hInv : LedgerInv db) (hop : ValidOp op) : LedgerInv (applyOp db op) := by
  obtain ⟨hP, hS⟩ := hInv
  cases op with
  | recordSale spid data =>
    have hop' : ∀ item ∈ data.products, 1 ≤ item.quantity := hop
    show LedgerInv (recordSale db spid data).1
    unfold recordSale
    cases hu : db.users.find? (fun u => decide (u.id = spid)) with
    | none => exact ⟨hP, hS⟩
    | some sp =>
      simp only [hu]
      cases hrp : processSaleLines db.products sp.outletId data.products with
      | mk ps' r =>
        have hps' : productsNonneg ps' := by
          have hh := processSaleLines_nonneg sp.outletId data.products db.products hP
          rw [hrp] at hh
          exact hh
        cases r with
        | error e => simp only [hrp]; exact ⟨hps', hS⟩
        | ok pr =>
          cases pr with
          | mk sps total =>
            simp only [hrp]
            refine ⟨hps', ?_⟩
            intro s hs
            rcases List.mem_append.mp hs with hs' | hs'
            · exact hS s hs'
            · rw [List.mem_singleton.mp hs']
              intro spx hspx
              obtain ⟨item, hitem, hq⟩ :=
                processSaleLines_line_quantities sp.outletId data.products
                  db.products ps' sps total hrp spx hspx
              have := hop' item hitem
              omega
  | updateSaleStatus sid st =>
    show LedgerInv (updateSaleStatus db sid st).1
    unfold updateSaleStatus
    cases hf : db.sales.find? (fun s => decide (s.id = sid)) with
    | none => exact ⟨hP, hS⟩
    | some sale =>
      simp only [hf]
      by_cases h1 : sale.status = st
      · rw [if_pos h1]; exact ⟨hP, hS⟩
      · rw [if_neg h1]
        by_cases h2 : st = SalesStatus.returned
        · rw [if_neg (by simp [h2])]
          refine ⟨?_, ?_⟩
          · exact restock_nonneg sale.products db.products hP
              (fun sp hsp => hS sale (List.mem_of_find?_eq_some hf) sp hsp)
          · intro s hs
            rcases mem_saveSale hs with rfl | hs'
            · intro sp hsp
              exact hS sale (List.mem_of_find?_eq_some hf) sp hsp
            · exact hS s hs'
        · rw [if_pos h2]
          exact ⟨hP, hS⟩
  | recordInventory oid aid counts =>
    show LedgerInv (recordInventory db oid aid counts).1
    unfold recordInventory
    cases ho : db.outlets.find? (fun o => decide (o.id = oid)) with
    | none => exact ⟨hP, hS⟩
    | some outlet =>
      simp only [ho]
      cases ha : db.users.find? (fun u => decide (u.id = aid)) with
      | none => exact ⟨hP, hS⟩
      | some actioner =>
        simp only [ha]
        cases hb : buildInventoryLines db.products oid counts with
        | error e => simp only [hb]; exact ⟨hP, hS⟩
        | ok lines => simp only [hb]; exact ⟨hP, hS⟩
  | reconcileInventory iid recs =>
    have hop' : ∀ r ∈ recs, 0 ≤ r.reconciledQuantity := hop
    show LedgerInv (reconcileInventory db iid recs).1
    unfold reconcileInventory
    cases hf : db.inventories.find? (fun i => decide (i.id = iid)) with
    | none => exact ⟨hP, hS⟩
    | some inv =>
      simp only [hf]
      by_cases hst : inv.status = InventoryStatus.reconciled
      · rw [if_pos hst]; exact ⟨hP, hS⟩
      · rw [if_neg hst]
        have hh := reconcileProducts_nonneg recs hop' inv.products db.products hP
        cases hrp : reconcileProducts recs db.products inv.products with
        | mk ps' lines' =>
          rw [hrp] at hh
          have h2 : productsNonneg ps' := hh
          simp only [hrp]
          exact ⟨h2, hS⟩

/-- The invariant is preserved along any sequence of valid operations. -/
theorem foldl_preserves_inv :
    ∀ (ops : List Op) (db : DB), LedgerInv db → (∀ op ∈ ops, ValidOp op) →
      LedgerInv (ops.foldl applyOp db) := by
  intro ops
  induction ops with
  | nil => intro db h _; exact h
  | cons op rest ih =>
    intro db h hv
    exact ih (applyOp db op)
      (applyOp_preserves_inv db op h (hv op (List.mem_cons_self op rest)))
      (fun o ho => hv o (List.mem_cons_of_mem op ho))

/-- C2: starting from a store whose product quantities are all `≥ 0`
(and no sales recorded yet), any sequence of the exposed operations with
validated inputs (sale line quantities `≥ 1`, reconciled quantities
`≥ 0`) keeps every `Product.quantity ≥ 0` — including the partial states
the non-transactional error paths leave behind. -/
theorem quantity_nonneg_reachable (db : DB) (ops : List Op)
    (h0 : productsNonneg db.products) (hs : db.sales = [])
    (hv : ∀ op ∈ ops, ValidOp op) :
    productsNonneg (ops.foldl applyOp db).products := by
  have hInv : LedgerInv db := by
    refine ⟨h0, ?_⟩
    rw [hs]
    intro s hs'
    cases hs'
  exact (foldl_preserves_inv ops db hInv hv).1

/-- Witness for C2: a sale, its return and an insufficient-stock
failure, starting from the example store. -/
theorem quantity_nonneg_reachable_witness :
    productsNonneg
      (([Op.recordSale "u1" exSaleDataOk, Op.updateSaleStatus 0 .returned,
         Op.recordSale "u1" exSaleDataInsufficient].foldl applyOp exDB)).products := by
  have hv : ∀ op ∈ [Op.recordSale "u1" exSaleDataOk, Op.updateSaleStatus 0 .returned,
      Op.recordSale "u1" exSaleDataInsufficient], ValidOp op := by
    intro op hop
    rcases List.mem_cons.mp hop with rfl | hop
    · show ∀ item ∈ exSaleDataOk.products, 1 ≤ item.quantity
      decide
    rcases List.mem_cons.mp hop with rfl | hop
    · trivial
    rcases List.mem_cons.mp hop with rfl | hop
    · show ∀ item ∈ exSaleDataInsufficient.products, 1 ≤ item.quantity
      decide
    cases hop
  exact quantity_nonneg_reachable exDB _
    (by show ∀ p ∈ exDB.products, 0 ≤ p.quantity; decide) rfl hv

/-- Adjusting a quantity never changes the primary key. -/
theorem adjustFun_id (pid : String) (d : Int) (p : Product) :
    (adjustFun pid d p).id = p.id := by
  unfold adjustFun
  split <;> rfl

/-- A chain of adjustments acts on one product by adding the total delta
registered against its key. -/
theorem chainAdj_eq (L : List (String × Int)) :
    ∀ p : Product, chainAdj L p = { p with quantity := p.quantity + deltaFor p.id L } := by
  induction L with
  | nil =>
    intro p
    show p = { p with quantity := p.quantity + deltaFor p.id [] }
    unfold deltaFor
    cases p
    simp
  | cons pr rest ih =>
    intro p
    show chainAdj rest (adjustFun pr.1 pr.2 p) = _
    rw [ih]
    have hd : deltaFor p.id (pr :: rest)
        = (if pr.1 = p.id then pr.2 else 0) + deltaFor p.id rest := rfl
    by_cases hid : p.id = pr.1
    · have ha : adjustFun pr.1 pr.2 p = { p with quantity := p.quantity + pr.2 } := by
        simp [adjustFun, hid]
      rw [ha]
      show ({ p with quantity := p.quantity + pr.2 + deltaFor p.id rest } : Product)
        = { p with quantity := p.quantity + deltaFor p.id (pr :: rest) }
      rw [hd, if_pos hid.symm, Int.add_assoc]
    · have ha : adjustFun pr.1 pr.2 p = p := by
        simp [adjustFun, hid]
      rw [ha]
      show ({ p with quantity := p.quantity + deltaFor p.id rest } : Product)
        = { p with quantity := p.quantity + deltaFor p.id (pr :: rest) }
      rw [hd, if_neg (fun hh => hid hh.symm), Int.zero_add]

/-- Sequential adjustment application is the pointwise chain. -/
theorem applyAdjusts_eq_map :
    ∀ (L : List (String × Int)) (ps : List Product),
      applyAdjusts ps L = ps.map (chainAdj L) := by
  intro L
  induction L with
  | nil =>
    intro ps
    show ps = ps.map (chainAdj [])
    exact (List.map_id' ps).symm
  | cons pr rest ih =>
    intro ps
    show applyAdjusts (adjust ps pr.1 pr.2) rest = ps.map (chainAdj (pr :: rest))
    rw [ih]
    unfold adjust
    rw [List.map_map]
    rfl

theorem deltaFor_append (pid : String) (L₁ L₂ : List (String × Int)) :
    deltaFor pid (L₁ ++ L₂) = deltaFor pid L₁ + deltaFor pid L₂ := by
  induction L₁ with
  | nil => simp [deltaFor]
  | cons pr rest ih =>
    show (if pr.1 = pid then pr.2 else 0) + deltaFor pid (rest ++ L₂) = _
    rw [ih]
    show _ = (if pr.1 = pid then pr.2 else 0) + deltaFor pid rest + deltaFor pid L₂
    ring

/-- The decrements of a sale and the increments of its return cancel on
every key. -/
theorem deltaFor_dec_inc (pid : String) (sps : List SalesProduct) :
    deltaFor pid (decItems sps) + deltaFor pid (incItems sps) = 0 := by
  induction sps with
  | nil => rfl
  | cons sp rest ih =>
    show (if sp.productId = pid then -sp.quantity else 0) + deltaFor pid (decItems rest)
        + ((if sp.productId = pid then sp.quantity else 0) + deltaFor pid (incItems rest)) = 0
    by_cases h : sp.productId = pid <;> simp [h] <;> omega

/-- Applying the decrements of a sale and then the increments of its
return leaves the product store unchanged. -/
theorem applyAdjusts_cancel (sps : List SalesProduct) (ps : List Product) :
    applyAdjusts ps (decItems sps ++ incItems sps) = ps := by
  rw [applyAdjusts_eq_map]
  have hpt : ∀ p ∈ ps, chainAdj (decItems sps ++ incItems sps) p = p := by
    intro p _
    rw [chainAdj_eq, deltaFor_append]
    have h := deltaFor_dec_inc p.id sps
    cases p with
    | mk pid pout pname pprice pq =>
      simp only [Product.mk.injEq, true_and]
      simp only at h
      omega
  calc ps.map (chainAdj (decItems sps ++ incItems sps))
      = ps.map (fun p => p) := List.map_congr_left hpt
    _ = ps := List.map_id' ps

theorem applyAdjusts_append :
    ∀ (L₁ L₂ : List (String × Int)) (ps : List Product),
      applyAdjusts ps (L₁ ++ L₂) = applyAdjusts (applyAdjusts ps L₁) L₂ := by
  intro L₁
  induction L₁ with
  | nil => intro L₂ ps; rfl
  | cons pr rest ih => intro L₂ ps; exact ih L₂ (adjust ps pr.1 pr.2)

/-- Adjustments do not change the key list. -/
theorem prodIds_adjust (ps : List Product) (pid : String) (d : Int) :
    prodIds (adjust ps pid d) = prodIds ps := by
  unfold prodIds adjust
  rw [List.map_map]
  exact List.map_congr_left (fun p _ => adjustFun_id pid d p)

/-- With unique keys, two rows sharing a key are the same row. -/
theorem key_unique {ps : List Product} (hnd : (prodIds ps).Nodup) {p q : Product}
    (hp : p ∈ ps) (hq : q ∈ ps) (hid : p.id = q.id) : p = q := by
  have hnd' : (ps.map Product.id).Nodup := hnd
  exact List.inj_on_of_nodup_map hnd' hp hq hid

/-- With unique keys, saving a row whose quantity was shifted by `d` is
the relative adjustment on its key. -/
theorem saveProduct_shift {ps : List Product} {product : Product}
    (hnd : (prodIds ps).Nodup) (hmem : product ∈ ps) (d : Int) :
    saveProduct ps { product with quantity := product.quantity + d }
      = adjust ps product.id d := by
  unfold saveProduct adjust
  apply List.map_congr_left
  intro q hq
  show (if q.id = product.id then { product with quantity := product.quantity + d } else q)
    = adjustFun product.id d q
  by_cases hid : q.id = product.id
  · rw [if_pos hid]
    unfold adjustFun
    rw [if_pos hid]
    have hqp : q = product := key_unique hnd hq hmem hid
    rw [hqp]
  · rw [if_neg hid]
    unfold adjustFun
    rw [if_neg hid]

/-- A successful sale loop applies exactly the decrements of its lines,
preserves the key list, and only touches existing keys. -/
theorem processSaleLines_ok_adjusts (oid : Option String) :
    ∀ (items : List SaleLineInput) (ps ps' : List Product)
      (sps : List SalesProduct) (total : Int),
      (prodIds ps).Nodup →
      processSaleLines ps oid items = (ps', .ok (sps, total)) →
      ps' = applyAdjusts ps (decItems sps)
      ∧ prodIds ps' = prodIds ps
      ∧ ∀ sp ∈ sps, sp.productId ∈ prodIds ps := by
  intro items
  induction items with
  | nil =>
    intro ps ps' sps total hnd h
    unfold processSaleLines at h
    injection h with h1 h2
    injection h2 with h3
    injection h3 with h4 h5
    subst h1
    subst h4
    exact ⟨rfl, rfl, fun sp hsp => absurd hsp (List.not_mem_nil sp)⟩
  | cons item rest ih =>
    intro ps ps' sps total hnd h
    unfold processSaleLines at h
    split at h
    · injection h with h1 h2
      cases h2
    · rename_i product hfind
      split at h
      · injection h with h1 h2
        cases h2
      · split at h
        · rename_i ps₂ sps₂ total₂ hrec
          injection h with h1 h2
          injection h2 with h3
          injection h3 with h4 h5
          subst h1
          subst h4
          have hmem : product ∈ ps := List.mem_of_find?_eq_some hfind
          have hsub : { product with quantity := product.quantity - item.quantity }
              = { product with quantity := product.quantity + (-item.quantity) } := by
            rw [Int.sub_eq_add_neg]
          rw [hsub, saveProduct_shift hnd hmem (-item.quantity)] at hrec
          have hnd₂ : (prodIds (adjust ps product.id (-item.quantity))).Nodup := by
            rw [prodIds_adjust]
            exact hnd
          obtain ⟨e1, e2, e3⟩ := ih _ _ _ _ hnd₂ hrec
          rw [prodIds_adjust] at e2 e3
          refine ⟨?_, e2, ?_⟩
          · show ps₂ = applyAdjusts ps (decItems
              (⟨product.id, product.name, item.quantity, product.price⟩ :: sps₂))
            simp only [decItems, List.map_cons]
            show ps₂ = applyAdjusts (adjust ps product.id (-item.quantity)) (decItems sps₂)
            exact e1
          · intro sp hsp
            cases hsp with
            | head => exact List.mem_map_of_mem Product.id hmem
            | tail _ hmemsp => exact e3 sp hmemsp
        · injection h with h1 h2
          cases h2

/-- With unique, present keys the re-stock loop applies exactly the
increments of the sale's lines. -/
theorem restock_adjusts :
    ∀ (sps : List SalesProduct) (ps : List Product),
      (prodIds ps).Nodup → (∀ sp ∈ sps, sp.productId ∈ prodIds ps) →
      restock ps sps = applyAdjusts ps (incItems sps) := by
  intro sps
  induction sps with
  | nil => intro ps _ _; rfl
  | cons sp rest ih =>
    intro ps hnd hm
    unfold restock
    obtain ⟨q, hq, hqid⟩ := List.mem_map.mp (hm sp (List.mem_cons_self sp rest))
    cases hfind : findProductById ps sp.productId with
    | none =>
      exfalso
      have hnone := List.find?_eq_none.mp hfind q hq
      rw [hqid] at hnone
      simp at hnone
    | some product =>
      simp only [hfind]
      have hpmem : product ∈ ps := List.mem_of_find?_eq_some hfind
      have hfind' : ps.find? (fun p => decide (p.id = sp.productId)) = some product := hfind
      have hpid := List.find?_some hfind'
      simp only [decide_eq_true_eq] at hpid
      rw [saveProduct_shift hnd hpmem sp.quantity]
      rw [ih (adjust ps product.id sp.quantity)
        (by rw [prodIds_adjust]; exact hnd)
        (by intro x hx; rw [prodIds_adjust]; exact hm x (List.mem_cons_of_mem sp hx))]
      simp only [incItems, List.map_cons]
      show applyAdjusts (adjust ps product.id sp.quantity) (incItems rest)
        = applyAdjusts (adjust ps sp.productId sp.quantity) (incItems rest)
      rw [hpid]

/-- Finding by id in `old ++ [fresh]` hits `fresh` when no old row
carries the id. -/
theorem find?_append_singleton {ss : List Sales} {sale : Sales} {n : Nat}
    (hfresh : ∀ s ∈ ss, s.id ≠ n) (hid : sale.id = n) :
    (ss ++ [sale]).find? (fun s => decide (s.id = n)) = some sale := by
  induction ss with
  | nil =>
    show List.find? (fun s => decide (s.id = n)) [sale] = some sale
    simp [List.find?, hid]
  | cons s rest ih =>
    have hs : ¬(s.id = n) := hfresh s (List.mem_cons_self s rest)
    have hpred : decide (s.id = n) = false := by simp [hs]
    show List.find? (fun t => decide (t.id = n)) (s :: (rest ++ [sale])) = some sale
    simp only [List.find?, hpred]
    exact ih (fun t ht => hfresh t (List.mem_cons_of_mem s ht))

/-- C5 (amended): a successful `recordSale` followed by a successful
`updateSaleStatus(saleId, RETURNED)` restores every product's quantity
to its pre-sale value, provided the store's keys are unique, the sale's
id is fresh, the sale was not created already in RETURNED status (the
DTO permits that pathological input), and nothing else ran in between:
the final product store equals the initial one. -/
theorem round_trip_restores (db : DB) (spid : String) (data : SaleData)
    (db₁ db₂ : DB) (sale sale' : Sales)
    (hnd : (prodIds db.products).Nodup)
    (hfresh : ∀ s ∈ db.sales, s.id ≠ db.nextId)
    (h₁ : recordSale db spid data = (db₁, .ok sale))
    (hnotret : sale.status ≠ SalesStatus.returned)
    (h₂ : updateSaleStatus db₁ sale.id .returned = (db₂, .ok sale')) :
    db₂.products = db.products := by
  obtain ⟨sp, ps', sps, total, hu, hlines, hsale, hdb₁⟩ :=
    recordSale_ok_inversion db spid data db₁ sale h₁
  obtain ⟨hps', hids, hmem⟩ :=
    processSaleLines_ok_adjusts sp.outletId data.products db.products ps' sps total hnd hlines
  have hsid : sale.id = db.nextId := by rw [hsale]; rfl
  have hfind : db₁.sales.find? (fun s => decide (s.id = sale.id)) = some sale := by
    rw [hdb₁]
    show (db.sales ++ [mkSale db sp data sps total]).find?
      (fun s => decide (s.id = sale.id)) = some sale
    rw [← hsale]
    exact find?_append_singleton
      (fun s hs => by rw [hsid]; exact hfresh s hs) rfl
  unfold updateSaleStatus at h₂
  simp only [hfind] at h₂
  rw [if_neg hnotret] at h₂
  rw [if_neg (by simp : ¬(SalesStatus.returned ≠ SalesStatus.returned))] at h₂
  injection h₂ with h3 h4
  rw [← h3]
  show restock db₁.products sale.products = db.products
  have hprods₁ : db₁.products = ps' := by rw [hdb₁]
  have hsaleprods : sale.products = sps := by rw [hsale]; rfl
  rw [hprods₁, hsaleprods]
  rw [restock_adjusts sps ps'
    (by rw [hids]; exact hnd)
    (by intro spx hspx; rw [hids]; exact hmem spx hspx)]
  rw [hps', ← applyAdjusts_append]
  exact applyAdjusts_cancel sps db.products

/-- C5 (counterexample): if the caller records the sale with the
DTO-permitted `status: returned`, both calls succeed, yet the final
quantities are NOT restored — the sale decremented stock at creation and
the no-change early return never re-stocks it. -/
theorem round_trip_cex :
    isErr (recordSale exDB "u1" exSaleDataReturnedStatus).2 = false
    ∧ isErr (updateSaleStatus
        (recordSale exDB "u1" exSaleDataReturnedStatus).1 0 .returned).2 = false
    ∧ (updateSaleStatus
        (recordSale exDB "u1" exSaleDataReturnedStatus).1 0 .returned).1.products
      ≠ exDB.products := by
  refine ⟨rfl, rfl, ?_⟩
  decide

/-- Witness for C5's amended theorem on a concrete two-line sale. -/
theorem round_trip_restores_witness : exDBAfterRet.products = exDB.products :=
  round_trip_restores exDB "u1" exSaleDataOk exDBAfterOk exDBAfterRet exSaleOk
    { exSaleOk with status := .returned }
    (by show (exDB.products.map Product.id).Nodup; decide)
    (by show ∀ s ∈ exDB.sales, s.id ≠ exDB.nextId; decide)
    (by rfl)
    (by decide)
    (by rfl)

/-- Inserting into a list adds only the inserted element. -/
theorem mem_insertLe {α : Type} (le : α → α → Bool) (x : α) :
    ∀ (l : List α) (a : α), a ∈ insertLe le x l → a = x ∨ a ∈ l := by
  intro l
  induction l with
  | nil =>
    intro a ha
    exact Or.inl (List.mem_singleton.mp ha)
  | cons y ys ih =>
    intro a ha
    unfold insertLe at ha
    by_cases h : le x y = true
    · rw [if_pos h] at ha
      rcases List.mem_cons.mp ha with rfl | ha2
      · exact Or.inl rfl
      · exact Or.inr ha2
    · rw [if_neg h] at ha
      rcases List.mem_cons.mp ha with rfl | ha2
      · exact Or.inr (List.mem_cons_self a ys)
      · rcases ih a ha2 with h' | h'
        · exact Or.inl h'
        · exact Or.inr (List.mem_cons_of_mem y h')

/-- The sort model only permutes: members come from the input. -/
theorem mem_sortLe {α : Type} (le : α → α → Bool) :
    ∀ (l : List α) (a : α), a ∈ sortLe le l → a ∈ l := by
  intro l
  induction l with
  | nil => intro a ha; exact absurd ha (List.not_mem_nil a)
  | cons x xs ih =>
    intro a ha
    rcases mem_insertLe le x (sortLe le xs) a ha with rfl | h
    · exact List.mem_cons_self a xs
    · exact List.mem_cons_of_mem x (ih a h)

/-- Every row a list query returns satisfies the query's predicate,
whatever the sorting and pagination. -/
theorem mem_runListQuery {α : Type} (pred : α → Bool) (le : α → α → Bool)
    (rows : List α) (page limit : Int) (a : α)
    (ha : a ∈ (runListQuery pred le rows page limit).data) : pred a = true := by
  have ha' : a ∈ ((sortLe le (rows.filter pred)).drop
      ((page - 1) * limit).toNat).take limit.toNat := ha
  have h1 := List.take_subset _ _ ha'
  have h2 := List.drop_subset _ _ h1
  have h3 := mem_sortLe le _ a h2
  exact (List.mem_filter.mp h3).2

/-- SQL equality holding forces both sides present and equal. -/
theorem sqlEq_true {a b : Option String} (h : sqlEq a b = true) :
    a = b ∧ a.isSome = true := by
  cases a with
  | none => cases b <;> exact absurd h (by simp [sqlEq])
  | some x =>
    cases b with
    | none => exact absurd h (by simp [sqlEq])
    | some y =>
      have hxy : x = y := by
        have h' : (x == y) = true := h
        exact eq_of_beq h'
      subst hxy
      exact ⟨rfl, rfl⟩

/-- C9: whatever the caller-supplied filters and pagination, every row
`getAllSales` returns to a `sales_rep` carries that requester's own
`salesPersonId`; every row it returns to a `store_executive` joins to a
sales person in the requester's outlet; and every row
`getAllInventories` returns to a `store_executive` lies in the
requester's outlet. -/
theorem rbac_isolation (requester : Requester) (users : List User) (rows : List SalesRow)
    (filters : SalesFilters) (pagination : PaginationOptions)
    (outlets : List OutletRow) (invRows : List InventoryRow)
    (invFilters : InventoryFilters) (invPagination : PaginationOptions) :
    (∀ row ∈ (getAllSales requester users rows filters pagination).data,
        requester.userType = "sales_rep" → row.salesPersonId = some requester.id)
    ∧ (∀ row ∈ (getAllSales requester users rows filters pagination).data,
        requester.userType = "store_executive" →
          (salesPersonOf users row).bind User.outletId = requester.outletId
          ∧ requester.outletId.isSome = true)
    ∧ (∀ row ∈ (getAllInventories requester outlets invRows invFilters invPagination).data,
        requester.userType = "store_executive" →
          some row.outletId = requester.outletId) := by
  refine ⟨?_, ?_, ?_⟩
  · intro row hrow htype
    have hrow' : row ∈ (runListQuery
        (fun row => rbacSales requester users row && filterSales filters users row)
        (salesOrder (pagination.sortBy.getD "createdAt") (pagination.sortOrder.getD "DESC"))
        rows (pagination.page.getD 1) (pagination.limit.getD 20)).data := hrow
    have hpred := mem_runListQuery _ _ _ _ _ row hrow'
    simp only [Bool.and_eq_true] at hpred
    have hrbac := hpred.1
    unfold rbacSales at hrbac
    rw [htype] at hrbac
    rw [if_neg (by decide), if_neg (by decide), if_pos (by decide)] at hrbac
    exact (sqlEq_true hrbac).1
  · intro row hrow htype
    have hrow' : row ∈ (runListQuery
        (fun row => rbacSales requester users row && filterSales filters users row)
        (salesOrder (pagination.sortBy.getD "createdAt") (pagination.sortOrder.getD "DESC"))
        rows (pagination.page.getD 1) (pagination.limit.getD 20)).data := hrow
    have hpred := mem_runListQuery _ _ _ _ _ row hrow'
    simp only [Bool.and_eq_true] at hpred
    have hrbac := hpred.1
    unfold rbacSales at hrbac
    rw [htype] at hrbac
    rw [if_neg (by decide), if_pos (by decide)] at hrbac
    obtain ⟨heq, hsome⟩ := sqlEq_true hrbac
    exact ⟨heq, heq ▸ hsome⟩
  · intro row hrow htype
    have hrow' : row ∈ (runListQuery
        (fun row => rbacInventories requester outlets row
          && filterInventories invFilters outlets row)
        (inventoryOrder (invPagination.sortBy.getD "createdAt")
          (invPagination.sortOrder.getD "DESC"))
        invRows (invPagination.page.getD 1) (invPagination.limit.getD 20)).data := hrow
    have hpred := mem_runListQuery _ _ _ _ _ row hrow'
    simp only [Bool.and_eq_true] at hpred
    have hrbac := hpred.1
    unfold rbacInventories at hrbac
    rw [htype] at hrbac
    rw [if_neg (by decide), if_pos (by decide)] at hrbac
    exact (sqlEq_true hrbac).1

/-- Witness for C9: a sales rep sees their own row; a store executive
sees an inventory row of their outlet. -/
theorem rbac_isolation_witness :
    exSalesRow.salesPersonId = some exRequesterSR.id
    ∧ some exInvRow.outletId = exRequesterSE.outletId := by
  constructor
  · exact (rbac_isolation exRequesterSR [exUser] [exSalesRow] exSalesFiltersNone exPagDefault
      [] [] exInvFiltersNone exPagDefault).1 exSalesRow (by decide) (by decide)
  · exact (rbac_isolation exRequesterSE [exUser] [] exSalesFiltersNone exPagDefault
      [⟨"o1", some "b1"⟩] [exInvRow] exInvFiltersNone exPagDefault).2.2 exInvRow
      (by decide) (by decide)

end Shop
